import Mathlib

/-!
Verification of the core logic of the jp-tutor-ai application (src/app.py):
knowledge-base parsing, trigger-based retrieval, system-prompt assembly,
code-fence normalization of model responses, schema validation of the
structured tutor turn, and the session-state update of the send handler.

Python string primitives are modelled structurally on `List Char` so that
every definition is executable and kernel-evaluable.
-/

/-- Characters treated as whitespace by Python's `str.strip()` (ASCII part). -/
def isPySpace (c : Char) : Bool :=
  c == ' ' || c == '\t' || c == '\n' || c == '\r' || c == '\x0b' || c == '\x0c'

/-- Model of Python `str.strip()` on char lists: drop whitespace at both ends. -/
def pyStripL (l : List Char) : List Char :=
  ((l.dropWhile isPySpace).reverse.dropWhile isPySpace).reverse

/-- Model of Python `str.strip()`. -/
def pyStrip (s : String) : String := ⟨pyStripL s.data⟩

/-- Model of Python `str.startswith`. -/
def pyStartsWith (s pre : String) : Bool := pre.data.isPrefixOf s.data

/-- Model of Python `needle in haystack` (substring containment) on char lists. -/
def pyContainsL (n : List Char) : List Char → Bool
  | [] => n.isEmpty
  | c :: cs => n.isPrefixOf (c :: cs) || pyContainsL n cs

/-- Model of Python `needle in haystack` (substring containment). -/
def pyContains (needle haystack : String) : Bool :=
  pyContainsL needle.data haystack.data

/-- Model of Python `str.split(sep)` for a single-character separator. -/
def splitCharAux (sep : Char) (acc : List Char) : List Char → List (List Char)
  | [] => [acc.reverse]
  | c :: cs =>
    if c = sep then acc.reverse :: splitCharAux sep [] cs
    else splitCharAux sep (c :: acc) cs

/-- Model of Python `str.split(sep)` for a single-character separator. -/
def pySplitChar (sep : Char) (s : String) : List String :=
  (splitCharAux sep [] s.data).map fun l => (⟨l⟩ : String)

/-- Chars of a string after its first `:` (models `s.split(":", 1)[1]`,
which `parse_kb_entries` only evaluates on lines known to contain a colon). -/
def afterColonL : List Char → List Char
  | [] => []
  | ':' :: r => r
  | _ :: r => afterColonL r

/-- Model of `line.split(":", 1)[1]`. -/
def afterColon (s : String) : String := ⟨afterColonL s.data⟩

/-- Model of Python `sep.join(parts)`. -/
def pyJoin (sep : String) : List String → String
  | [] => ""
  | [s] => s
  | s :: rest => s ++ sep ++ pyJoin sep rest

/-- Model of Python `str.splitlines()` line-break characters. -/
def isLineBreak (c : Char) : Bool :=
  c == '\n' || c == '\r' || c == '\x0b' || c == '\x0c' ||
  c == '\x1c' || c == '\x1d' || c == '\x1e' || c == '\x85' ||
  c == '\u2028' || c == '\u2029'

/-- Model of Python `str.splitlines()`: `\r\n` counts as one break and a final
break produces no trailing empty line. -/
def pySplitlinesAux (acc : List Char) : List Char → List (List Char)
  | [] => if acc.isEmpty then [] else [acc.reverse]
  | '\r' :: '\n' :: rest => acc.reverse :: pySplitlinesAux [] rest
  | c :: rest =>
    if isLineBreak c then acc.reverse :: pySplitlinesAux [] rest
    else pySplitlinesAux (c :: acc) rest

/-- Model of Python `str.splitlines()`. -/
def pySplitlines (s : String) : List String :=
  (pySplitlinesAux [] s.data).map fun l => (⟨l⟩ : String)

/-- Model of `text.split("```")` on char lists: split on every occurrence of
the triple-backtick fence, scanning left to right without overlap. -/
def splitTicksAux (acc : List Char) : List Char → List (List Char)
  | [] => [acc.reverse]
  | [c] => [(c :: acc).reverse]
  | [c, c2] => [(c2 :: c :: acc).reverse]
  | c :: c2 :: c3 :: rest =>
    if c = '`' ∧ c2 = '`' ∧ c3 = '`' then acc.reverse :: splitTicksAux [] rest
    else splitTicksAux (c :: acc) (c2 :: c3 :: rest)

/-- Model of `text.split("```")`. -/
def pySplitTicks (s : String) : List String :=
  (splitTicksAux [] s.data).map fun l => (⟨l⟩ : String)

/-- Model of `s.replace("json", "")` on char lists: delete every
non-overlapping occurrence of `json`, scanning left to right. -/
def removeJsonL : List Char → List Char
  | [] => []
  | 'j' :: 's' :: 'o' :: 'n' :: rest => removeJsonL rest
  | c :: cs => c :: removeJsonL cs

/-- Model of `s.replace("json", "")`. -/
def removeJson (s : String) : String := ⟨removeJsonL s.data⟩

/-- Model of `s.replace("## [", "")` on char lists. -/
def removeHdrL : List Char → List Char
  | [] => []
  | '#' :: '#' :: ' ' :: '[' :: rest => removeHdrL rest
  | c :: cs => c :: removeHdrL cs

/-- Model of `s.replace("## [", "")`. -/
def removeHdr (s : String) : String := ⟨removeHdrL s.data⟩

/-!  Knowledge-base entries (`parse_kb_entries` in src/app.py). -/

/-- A knowledge-base entry, as built by `parse_kb_entries`.  The Python code
uses a dict with keys `id`, `title`, `triggers`, `text_lines` and (added after
the loop) `text`. -/
structure KbEntry where
  id : String
  title : String
  triggers : List String
  text_lines : List String
  text : String
deriving DecidableEq, Repr

/-- `line.startswith("## [KB") and "]" in line`. -/
def isHeader (line : String) : Bool :=
  pyStartsWith line "## [KB" && pyContains "]" line

/-- Trigger-list extraction from a `- triggers:` line:
`line.split(":", 1)[1].strip()` comma-split, trimmed, empties dropped. -/
def parseTriggersLine (line : String) : List String :=
  let trig := pyStrip (afterColon line)
  ((pySplitChar ',' trig).map pyStrip).filter fun t => t != ""

/-- Entry started at a header line:
`kb_id = line.split("]")[0].replace("## [", "").strip()`,
`title = line.split("]")[1].strip()`, text buffer seeded with the line. -/
def mkEntry (line : String) : KbEntry :=
  let parts := pySplitChar ']' line
  { id := pyStrip (removeHdr (parts.getD 0 ""))
    title := pyStrip (parts.getD 1 "")
    triggers := []
    text_lines := [line]
    text := "" }

/-- Body line appended to the current entry; a `- triggers:` line also
replaces the triggers list. -/
def addLine (e : KbEntry) (line : String) : KbEntry :=
  { e with
    text_lines := e.text_lines ++ [line]
    triggers :=
      if pyStartsWith line "- triggers:" then parseTriggersLine line
      else e.triggers }

/-- The line loop of `parse_kb_entries`: headers flush the current entry and
start a new one; other lines extend the current entry, if any. -/
def parseKbLoop : List String → Option KbEntry → List KbEntry
  | [], none => []
  | [], some cur => [cur]
  | l :: ls, none =>
    if isHeader l then parseKbLoop ls (some (mkEntry l))
    else parseKbLoop ls none
  | l :: ls, some cur =>
    if isHeader l then cur :: parseKbLoop ls (some (mkEntry l))
    else parseKbLoop ls (some (addLine cur l))

/-- Post-loop step of `parse_kb_entries`:
`e["text"] = "\n".join(e["text_lines"]).strip()`. -/
def finalizeEntry (e : KbEntry) : KbEntry :=
  { e with text := pyStrip (pyJoin "\n" e.text_lines) }

/-- The line-level body of `parse_kb_entries`. -/
def parseKbLines (ls : List String) : List KbEntry :=
  (parseKbLoop ls none).map finalizeEntry

/-- `parse_kb_entries` from src/app.py. -/
def parse_kb_entries (kb_text : String) : List KbEntry :=
  parseKbLines (pySplitlines kb_text)

/-!  Specification-side block decomposition, written from the spec's words:
a block is the slice of the document's lines from an entry's header line to
(exclusive) the next header line or the end of the document; lines before the
first header belong to no block. -/

/-- Accumulates the block begun by a header until the next header. -/
def specBlocksAux (curr : List String) : List String → List (List String)
  | [] => [curr]
  | l :: ls =>
    if isHeader l then curr :: specBlocksAux [l] ls
    else specBlocksAux (curr ++ [l]) ls

/-- Modelled from the spec: the list of header-delimited blocks of a document's
lines (each block runs from a header line to just before the next header line
or the end; lines before the first header are in no block). -/
def specBlocks : List String → List (List String)
  | [] => []
  | l :: ls => if isHeader l then specBlocksAux [l] ls else specBlocks ls

/-!  Retrieval (`select_kb` in src/app.py). -/

/-- The score loop of `select_kb`: `score += 3` for every trigger `t` with
`t and t in q`. -/
def entryScore (e : KbEntry) (q : String) : Nat :=
  e.triggers.foldl (fun s t => if t != "" && pyContains t q then s + 3 else s) 0

/-- Stable descending insertion by score: an element goes after every earlier
element of greater or equal score.  Models the behavior of Python's stable
`list.sort(key=lambda x: x[0], reverse=True)`. -/
def insertDesc (p : Nat × KbEntry) : List (Nat × KbEntry) → List (Nat × KbEntry)
  | [] => [p]
  | q :: qs => if q.1 ≤ p.1 then p :: q :: qs else q :: insertDesc p qs

/-- Stable sort by score descending (models Python's stable `list.sort` with
`reverse=True`). -/
def sortDesc : List (Nat × KbEntry) → List (Nat × KbEntry)
  | [] => []
  | p :: ps => insertDesc p (sortDesc ps)

/-- `select_kb` from src/app.py. -/
def select_kb (entries : List KbEntry) (query : String) (topk : Nat) : List KbEntry :=
  let q := pyStrip query
  if q = "" || entries.isEmpty then []
  else
    let scored := (entries.map fun e => (entryScore e q, e)).filter fun p => 0 < p.1
    ((sortDesc scored).take topk).map fun p => p.2

/-!  Prompt assembly (`build_system_prompt` in src/app.py).  The sidebar
widget values read by the Python code are modelled as an explicit
configuration record. -/

/-- Session configuration consumed by `build_system_prompt`. -/
structure Config where
  level : String
  tone : String
  topic : String
  strictness : Nat
  useKb : Bool
  kbTopk : Nat
deriving DecidableEq, Repr

/-- First `n` characters of a string (Python `s[:n]`). -/
def strTake (n : Nat) (s : String) : String := ⟨s.data.take n⟩

/-- The KB selection made by `build_system_prompt`
(`select_kb(kb_entries, user_text, kb_topk) if use_kb else []`). -/
def selectedOf (cfg : Config) (entries : List KbEntry) (user_text : String) : List KbEntry :=
  if cfg.useKb then select_kb entries user_text cfg.kbTopk else []

/-- `build_system_prompt` from src/app.py, with the f-string written as
explicit concatenation. -/
def build_system_prompt (cfg : Config) (entries : List KbEntry) (user_text : String) : String :=
  let selected := selectedOf cfg entries user_text
  let kb_refs := pyJoin "\n\n" (selected.map fun e => strTake 1200 e.text)
  let kb_ids := selected.map fun e => e.id
  "\n你是一个“日语会话老师+逐句纠错器”。\n\n对话设定：\n- 学习者目标水平：" ++
  cfg.level ++
  "\n- 对话语气：" ++
  cfg.tone ++
  "\n- 主题：" ++
  cfg.topic ++
  "\n- 纠错严格度：" ++
  Nat.repr cfg.strictness ++
  "/5\n\n【参考資料：文法ノート（KB）】\n" ++
  kb_refs ++
  "\n\n硬性规则：\n- mini_lesson_ja 与理由解释要尽量依据KB内容来讲，不要编造“教材规则”。\n- 如果KB没有覆盖，就只给非常保守的解释（别瞎定规则）。\n- mini_lesson_ja 末尾必须标注" ++
  ("（参照: " ++
  (if kb_ids != [] then pyJoin ", " kb_ids else "なし") ++
  "）") ++
  "\n\n输出必须严格符合 TutorTurn 结构（只输出JSON对象，不要Markdown，不要多余文字）。\n"

/-!  Response normalization (the fence-stripping step of `call_model`,
src/app.py lines 219-224):

    text = resp.output_text.strip()
    if text.startswith("```"):
        parts = text.split("```")
        text = parts[1].replace("json", "").strip() if len(parts) >= 2 else text
-/

/-- The fence-stripping normalization applied by `call_model` to the raw model
response before `json.loads`. -/
def normalizeResponse (s : String) : String :=
  let text := pyStrip s
  if pyStartsWith text "```" then
    let parts := pySplitTicks text
    if 2 ≤ parts.length then pyStrip (removeJson (parts.getD 1 "")) else text
  else text

/-- Modelled from the spec (claim C1's words): strip surrounding whitespace;
on a leading fence, split on the fence delimiter, take the first fenced
block, strip only a leading `json` language-tag token if present, leave the
rest of the payload unchanged (up to the final whitespace strip). -/
def specNormalizeC1 (s : String) : String :=
  let text := pyStrip s
  if pyStartsWith text "```" then
    let parts := pySplitTicks text
    if 2 ≤ parts.length then
      let block := parts.getD 1 ""
      let block := if pyStartsWith block "json" then (⟨block.data.drop 4⟩ : String) else block
      pyStrip block
    else text
  else text

/-- Chars of the first fenced block: everything up to the next occurrence of
the triple-backtick fence (or the end). -/
def takeUntilTicksL : List Char → List Char
  | [] => []
  | [c] => [c]
  | [c, c2] => [c, c2]
  | c :: c2 :: c3 :: rest =>
    if c = '`' ∧ c2 = '`' ∧ c3 = '`' then []
    else c :: takeUntilTicksL (c2 :: c3 :: rest)

/-- The first fenced block of a string that begins with a fence: the text
between the opening fence and the next fence occurrence (or the end). -/
def firstFencedBlock (t : String) : String := ⟨takeUntilTicksL (t.data.drop 3)⟩

/-!  Structured output schema (`CorrectionItem` / `TutorTurn` in src/app.py)
and its validation (`TutorTurn.model_validate(data)`).  The validator is
modelled after pydantic's behavior on the declared model: every field is
checked and all violations are collected before the model is rejected. -/

/-- The closed `ErrorType` enumeration. -/
inductive ErrorType where
  | grammar | vocabulary | politeness | particle | tense
  | kanji_kana | naturalness | other
deriving DecidableEq, Repr

/-- The string form of an `ErrorType` (the `Literal` values in src/app.py). -/
def errorTypeToString : ErrorType → String
  | .grammar => "grammar"
  | .vocabulary => "vocabulary"
  | .politeness => "politeness"
  | .particle => "particle"
  | .tense => "tense"
  | .kanji_kana => "kanji_kana"
  | .naturalness => "naturalness"
  | .other => "other"

/-- Parse an `ErrorType` from its string form. -/
def errorTypeOfString (s : String) : Option ErrorType :=
  if s = "grammar" then some .grammar
  else if s = "vocabulary" then some .vocabulary
  else if s = "politeness" then some .politeness
  else if s = "particle" then some .particle
  else if s = "tense" then some .tense
  else if s = "kanji_kana" then some .kanji_kana
  else if s = "naturalness" then some .naturalness
  else if s = "other" then some .other
  else none

/-- `CorrectionItem` from src/app.py. -/
structure CorrectionItem where
  original : String
  corrected : String
  error_type : ErrorType
  reason_zh : String
  reason_ja : String
  tip : String
deriving DecidableEq, Repr

/-- `TutorTurn` from src/app.py (`corrections` defaults to the empty list;
`fluency_score` carries the `ge=0, le=100` bounds enforced by validation). -/
structure TutorTurn where
  reply_ja : String
  corrected_sentence_ja : String
  more_natural_ja : String
  corrections : List CorrectionItem
  mini_lesson_ja : String
  next_question_ja : String
  fluency_score : Int
deriving DecidableEq, Repr

/-- JSON values as produced by `json.loads`.  A JSON number without a decimal
point or exponent becomes a Python `int` (`Jval.int`); one with a decimal
point or exponent becomes a Python `float`, modelled here by the exact
rational value of the literal (`Jval.float`; the IEEE-754 rounding performed
by `json.loads` is not modelled, and is exact for the integer-valued floats
relevant to validation). -/
inductive Jval where
  | null
  | bool (b : Bool)
  | int (n : Int)
  | float (q : ℚ)
  | str (s : String)
  | arr (xs : List Jval)
  | obj (kvs : List (String × Jval))

/-- Key lookup in a JSON object. -/
def jlookup (kvs : List (String × Jval)) (k : String) : Option Jval :=
  match kvs with
  | [] => none
  | (k', v) :: rest => if k' = k then some v else jlookup rest k

/-- The error list of a validation result (empty on success). -/
def errList : Except (List String) α → List String
  | .ok _ => []
  | .error es => es

/-- Whether a validation result is a success. -/
def exOk : Except ε α → Bool
  | .ok _ => true
  | .error _ => false

/-- Required string field check: present and a JSON string. -/
def strFieldE (kvs : List (String × Jval)) (name : String) : Except (List String) String :=
  match jlookup kvs name with
  | some (.str s) => .ok s
  | _ => .error [name]

/-- Characters trimmed by pydantic-core's string-to-int coercion (Rust
`str::trim`, the Unicode White_Space set). -/
def isRustSpace (c : Char) : Bool :=
  let n := c.toNat
  (decide (9 ≤ n) && decide (n ≤ 13)) || decide (n = 32) || decide (n = 0x85) ||
  decide (n = 0xa0) || decide (n = 0x1680) ||
  (decide (0x2000 ≤ n) && decide (n ≤ 0x200a)) || decide (n = 0x2028) ||
  decide (n = 0x2029) || decide (n = 0x202f) || decide (n = 0x205f) ||
  decide (n = 0x3000)

/-- Trim Unicode whitespace at both ends (Rust `str::trim`). -/
def rustTrimL (l : List Char) : List Char :=
  ((l.dropWhile isRustSpace).reverse.dropWhile isRustSpace).reverse

/-- Digit-sequence part of pydantic-core's lax string-to-int parse: ASCII
digits with single underscores between digits, optionally ending with a
decimal point followed by one or more `0` digits (and nothing else). -/
def pydIntCore (acc : Nat) : List Char → Option Nat
  | [] => some acc
  | '.' :: rest =>
    if !rest.isEmpty && rest.all (fun c => c == '0') then some acc else none
  | '_' :: c :: rest =>
    if c.isDigit then pydIntCore (acc * 10 + (c.toNat - 48)) rest else none
  | c :: rest =>
    if c.isDigit then pydIntCore (acc * 10 + (c.toNat - 48)) rest else none

/-- pydantic-core's lax string-to-int coercion (checked against pydantic
2.10.6): trim Unicode whitespace, allow one leading `+` or `-`, then ASCII
digits with underscore grouping, optionally followed by an all-zeros
fractional part (`"80"`, `" +80.00 "`, `"1_0"` parse; `"80."`, `"8e1"`,
`"8__0"` do not). -/
def pydIntStrL (l : List Char) : Option Int :=
  match rustTrimL l with
  | '+' :: c :: rest =>
    if c.isDigit then (pydIntCore (c.toNat - 48) rest).map (fun n => (n : Int)) else none
  | '-' :: c :: rest =>
    if c.isDigit then (pydIntCore (c.toNat - 48) rest).map (fun n => -(n : Int)) else none
  | c :: rest =>
    if c.isDigit then (pydIntCore (c.toNat - 48) rest).map (fun n => (n : Int)) else none
  | [] => none

/-- pydantic v2 lax coercion of a JSON value to `int` (checked against
pydantic 2.10.6): an integer as is, a boolean as `1`/`0`, a float only when
integer-valued, and a numeric string per `pydIntStrL`; everything else is not
an `int`. -/
def pydIntValue : Jval → Option Int
  | .int n => some n
  | .bool b => some (if b then 1 else 0)
  | .float q => if q.den = 1 then some q.num else none
  | .str s => pydIntStrL s.data
  | _ => none

/-- `fluency_score` check: present, lax-coercible to an integer, and within
`[0, 100]` (pydantic validates `int = Field(ge=0, le=100)` in lax mode). -/
def fluencyFieldE (kvs : List (String × Jval)) : Except (List String) Int :=
  match jlookup kvs "fluency_score" with
  | some v =>
    match pydIntValue v with
    | some n => if 0 ≤ n ∧ n ≤ 100 then .ok n else .error ["fluency_score"]
    | none => .error ["fluency_score"]
  | none => .error ["fluency_score"]

/-- `error_type` check: present, a string, and one of the eight enum values. -/
def errTypeFieldE (kvs : List (String × Jval)) : Except (List String) ErrorType :=
  match jlookup kvs "error_type" with
  | some (.str s) =>
    match errorTypeOfString s with
    | some t => .ok t
    | none => .error ["error_type"]
  | _ => .error ["error_type"]

/-- String value of a field, only meaningful once validation has succeeded. -/
def strVal (kvs : List (String × Jval)) (name : String) : String :=
  match jlookup kvs name with
  | some (.str s) => s
  | _ => ""

/-- Integer value of `fluency_score` after lax coercion, only meaningful
once validation has succeeded. -/
def fluencyVal (kvs : List (String × Jval)) : Int :=
  match jlookup kvs "fluency_score" with
  | some v => (pydIntValue v).getD 0
  | none => 0

/-- `ErrorType` value of `error_type`, only meaningful after validation. -/
def errTypeVal (kvs : List (String × Jval)) : ErrorType :=
  match jlookup kvs "error_type" with
  | some (.str s) => (errorTypeOfString s).getD .other
  | _ => .other

/-- Validate one element of `corrections` against `CorrectionItem`, collecting
every violated field. -/
def validateCorrection (j : Jval) : Except (List String) CorrectionItem :=
  match j with
  | .obj kvs =>
    let errs :=
      errList (strFieldE kvs "original") ++ errList (strFieldE kvs "corrected") ++
      errList (errTypeFieldE kvs) ++ errList (strFieldE kvs "reason_zh") ++
      errList (strFieldE kvs "reason_ja") ++ errList (strFieldE kvs "tip")
    if errs.isEmpty then
      .ok
        { original := strVal kvs "original"
          corrected := strVal kvs "corrected"
          error_type := errTypeVal kvs
          reason_zh := strVal kvs "reason_zh"
          reason_ja := strVal kvs "reason_ja"
          tip := strVal kvs "tip" }
    else .error errs
  | _ => .error ["item"]

/-- Error paths of the items of `corrections`, each prefixed with the field
name and the item index. -/
def itemsErrs (i : Nat) : List Jval → List String
  | [] => []
  | x :: xs =>
    (errList (validateCorrection x)).map
      (fun p => "corrections." ++ (Nat.repr i ++ ("." ++ p))) ++ itemsErrs (i + 1) xs

/-- The validated `CorrectionItem` of one element, only meaningful after
validation. -/
def corrItemVal (j : Jval) : CorrectionItem :=
  match j with
  | .obj kvs =>
    { original := strVal kvs "original"
      corrected := strVal kvs "corrected"
      error_type := errTypeVal kvs
      reason_zh := strVal kvs "reason_zh"
      reason_ja := strVal kvs "reason_ja"
      tip := strVal kvs "tip" }
  | _ =>
    { original := ""
      corrected := ""
      error_type := .other
      reason_zh := ""
      reason_ja := ""
      tip := "" }

/-- `corrections` check: absent means the empty default; otherwise it must be
an array whose elements all validate as `CorrectionItem`. -/
def corrFieldE (kvs : List (String × Jval)) : Except (List String) (List CorrectionItem) :=
  match jlookup kvs "corrections" with
  | none => .ok []
  | some (.arr xs) =>
    if (itemsErrs 0 xs).isEmpty then .ok (xs.map corrItemVal) else .error (itemsErrs 0 xs)
  | some _ => .error ["corrections"]

/-- `TutorTurn.model_validate`: check every field of the declared model,
collecting all violations; succeed only when no field is violated. -/
def validateTutorTurn (j : Jval) : Except (List String) TutorTurn :=
  match j with
  | .obj kvs =>
    let errs :=
      errList (strFieldE kvs "reply_ja") ++
      errList (strFieldE kvs "corrected_sentence_ja") ++
      errList (strFieldE kvs "more_natural_ja") ++
      errList (corrFieldE kvs) ++
      errList (strFieldE kvs "mini_lesson_ja") ++
      errList (strFieldE kvs "next_question_ja") ++
      errList (fluencyFieldE kvs)
    if errs.isEmpty then
      .ok
        { reply_ja := strVal kvs "reply_ja"
          corrected_sentence_ja := strVal kvs "corrected_sentence_ja"
          more_natural_ja := strVal kvs "more_natural_ja"
          corrections :=
            match jlookup kvs "corrections" with
            | some (.arr xs) => xs.map corrItemVal
            | _ => []
          mini_lesson_ja := strVal kvs "mini_lesson_ja"
          next_question_ja := strVal kvs "next_question_ja"
          fluency_score := fluencyVal kvs }
    else .error errs
  | _ => .error ["input"]

/-- All reported validation errors of a parsed response. -/
def errorsOf (j : Jval) : List String := errList (validateTutorTurn j)

/-- The top-level field a reported error path belongs to (the path up to the
first dot). -/
def pathHead (p : String) : String := ⟨p.data.takeWhile fun c => !(c == '.')⟩

/-!  Specification-side schema predicate, written from the spec's words
(Data Model `TutorTurn`): all required string fields present as strings,
`fluencyScore` an integer in `[0, 100]`, `errorType` in the closed
enumeration, `corrections` (when present) an array of valid items. -/

/-- Field `name` is present and holds a JSON string. -/
def strOkB (kvs : List (String × Jval)) (name : String) : Bool :=
  match jlookup kvs name with
  | some (.str _) => true
  | _ => false

/-- Modelled from the original claim C6's words: `fluency_score` is a JSON
integer in `[0, 100]` (no lax coercion). -/
def fluencyOkStrictB (kvs : List (String × Jval)) : Bool :=
  match jlookup kvs "fluency_score" with
  | some (.int n) => decide (0 ≤ n) && decide (n ≤ 100)
  | _ => false

/-- Modelled from the amended claim C6: `fluency_score` is present and its
pydantic lax coercion yields an integer in `[0, 100]`. -/
def fluencyOkB (kvs : List (String × Jval)) : Bool :=
  match jlookup kvs "fluency_score" with
  | some v =>
    match pydIntValue v with
    | some n => decide (0 ≤ n) && decide (n ≤ 100)
    | none => false
  | none => false

/-- `error_type` is present, a string, and a member of the enumeration. -/
def errTypeOkB (kvs : List (String × Jval)) : Bool :=
  match jlookup kvs "error_type" with
  | some (.str s) => (errorTypeOfString s).isSome
  | _ => false

/-- A `corrections` element satisfies the `CorrectionItem` definition. -/
def corrItemOkB (j : Jval) : Bool :=
  match j with
  | .obj kvs =>
    strOkB kvs "original" && strOkB kvs "corrected" && errTypeOkB kvs &&
    strOkB kvs "reason_zh" && strOkB kvs "reason_ja" && strOkB kvs "tip"
  | _ => false

/-- The `corrections` field satisfies its declaration (absent, or an array of
valid items). -/
def corrOkB (kvs : List (String × Jval)) : Bool :=
  match jlookup kvs "corrections" with
  | none => true
  | some (.arr xs) => xs.all corrItemOkB
  | some _ => false

/-- Modelled from the amended claim C6: a parsed JSON object satisfies the
`TutorTurn` definition under pydantic v2 lax validation. -/
def tutorOkB (kvs : List (String × Jval)) : Bool :=
  strOkB kvs "reply_ja" && strOkB kvs "corrected_sentence_ja" &&
  strOkB kvs "more_natural_ja" && corrOkB kvs &&
  strOkB kvs "mini_lesson_ja" && strOkB kvs "next_question_ja" && fluencyOkB kvs

/-- Modelled from the original claim C6's words: the `TutorTurn` definition
read strictly, with `fluency_score` required to be a JSON integer. -/
def tutorOkStrictB (kvs : List (String × Jval)) : Bool :=
  strOkB kvs "reply_ja" && strOkB kvs "corrected_sentence_ja" &&
  strOkB kvs "more_natural_ja" && corrOkB kvs &&
  strOkB kvs "mini_lesson_ja" && strOkB kvs "next_question_ja" && fluencyOkStrictB kvs

/-- A response object whose `fluency_score` is the numeric string `"80"`
rather than an integer. -/
def strScoreKvs : List (String × Jval) :=
  [("reply_ja", .str "a"), ("corrected_sentence_ja", .str "b"),
   ("more_natural_ja", .str "c"), ("mini_lesson_ja", .str "d"),
   ("next_question_ja", .str "e"), ("fluency_score", .str "80")]

/-- Modelled from the spec: whether top-level field `f` of the object is
violated. -/
def fieldFails (f : String) (kvs : List (String × Jval)) : Bool :=
  if f = "reply_ja" then !(strOkB kvs "reply_ja")
  else if f = "corrected_sentence_ja" then !(strOkB kvs "corrected_sentence_ja")
  else if f = "more_natural_ja" then !(strOkB kvs "more_natural_ja")
  else if f = "corrections" then !(corrOkB kvs)
  else if f = "mini_lesson_ja" then !(strOkB kvs "mini_lesson_ja")
  else if f = "next_question_ja" then !(strOkB kvs "next_question_ja")
  else if f = "fluency_score" then !(fluencyOkB kvs)
  else false

/-!  The send handler (src/app.py lines 277-298) and session state.  The
network call and `json.loads` are external collaborators and enter the model
as parameters: `net` is the raw response text (`none` models a failed network
call) and `jloads` the JSON parser (`none` models a `JSONDecodeError`). -/

/-- One `{"role": ..., "content": ...}` message dict. -/
structure Msg where
  role : String
  content : String
deriving DecidableEq, Repr

/-- One entry of the mistake log
(`{"type": ..., "original": ..., "corrected": ...}`). -/
structure MistakeEntry where
  type : String
  original : String
  corrected : String
deriving DecidableEq, Repr

/-- The session state owned by Streamlit: conversation history and mistake
log. -/
structure SessionState where
  history : List Msg
  mistakes : List MistakeEntry
deriving DecidableEq, Repr

/-- The ways one exchange can fail (spec section 7). -/
inductive ExchErr where
  | network
  | malformed
  | invalid (errs : List String)
deriving DecidableEq, Repr

/-- Result of one exchange: the session state after the handler, the outcome,
and the messages sent to the model. -/
structure ExchangeResult where
  state : SessionState
  outcome : Except ExchErr TutorTurn
  sent : List Msg
deriving Repr

instance : DecidableEq (Except ExchErr TutorTurn) := fun a b =>
  match a, b with
  | .ok x, .ok y => decidable_of_iff (x = y) (by simp)
  | .error x, .error y => decidable_of_iff (x = y) (by simp)
  | .ok _, .error _ => isFalse (by simp)
  | .error _, .ok _ => isFalse (by simp)

instance : DecidableEq ExchangeResult := fun a b =>
  decidable_of_iff (a.state = b.state ∧ a.outcome = b.outcome ∧ a.sent = b.sent)
    (by cases a; cases b; simp [ExchangeResult.mk.injEq])

/-- One run of the send handler's try block: build the system prompt and the
message window (`call_model`), normalize and parse the response, validate it,
and only on full success append the user/assistant turns to the history and
one mistake entry per correction. -/
def runExchange (jloads : String → Option Jval) (cfg : Config) (entries : List KbEntry)
    (st : SessionState) (user_text : String) (net : Option String) : ExchangeResult :=
  let sys := build_system_prompt cfg entries user_text
  let msgs := ⟨"system", sys⟩ :: (st.history.drop (st.history.length - 10) ++ [⟨"user", user_text⟩])
  match net with
  | none => ⟨st, .error .network, msgs⟩
  | some raw =>
    match jloads (normalizeResponse raw) with
    | none => ⟨st, .error .malformed, msgs⟩
    | some j =>
      match validateTutorTurn j with
      | .error errs => ⟨st, .error (.invalid errs), msgs⟩
      | .ok r =>
        ⟨{ history := st.history ++ [⟨"user", user_text⟩, ⟨"assistant", r.reply_ja⟩]
           mistakes := st.mistakes ++ r.corrections.map fun c =>
             ⟨errorTypeToString c.error_type, c.original, c.corrected⟩ },
         .ok r, msgs⟩

/-!  Parser round-trip (claims C2 and C10). -/

theorem mkEntry_text_lines (l : String) : (mkEntry l).text_lines = [l] := rfl

theorem addLine_text_lines (e : KbEntry) (l : String) :
    (addLine e l).text_lines = e.text_lines ++ [l] := rfl

theorem finalizeEntry_text_lines (e : KbEntry) :
    (finalizeEntry e).text_lines = e.text_lines := rfl

theorem parseKbLoop_some_text_lines (ls : List String) :
    ∀ e : KbEntry, (parseKbLoop ls (some e)).map (fun x => x.text_lines) =
      specBlocksAux e.text_lines ls := by
  induction ls with
  | nil => intro e; simp [parseKbLoop, specBlocksAux]
  | cons l ls ih =>
    intro e
    by_cases h : isHeader l
    · simp [parseKbLoop, specBlocksAux, h, ih (mkEntry l), mkEntry_text_lines]
    · simp only [parseKbLoop, specBlocksAux, h, if_neg, Bool.false_eq_true, if_false,
        ih (addLine e l), addLine_text_lines]

theorem parseKbLoop_none_text_lines (ls : List String) :
    (parseKbLoop ls none).map (fun x => x.text_lines) = specBlocks ls := by
  induction ls with
  | nil => simp [parseKbLoop, specBlocks]
  | cons l ls ih =>
    by_cases h : isHeader l
    · simp [parseKbLoop, specBlocks, h, parseKbLoop_some_text_lines, mkEntry_text_lines]
    · simp [parseKbLoop, specBlocks, h, ih]

theorem parseKbLines_text_lines (ls : List String) :
    (parseKbLines ls).map (fun x => x.text_lines) = specBlocks ls := by
  unfold parseKbLines
  rw [List.map_map]
  have : ((fun x : KbEntry => x.text_lines) ∘ finalizeEntry) =
      fun x : KbEntry => x.text_lines := by
    funext e; simp [finalizeEntry]
  rw [this, parseKbLoop_none_text_lines]

/-- Claim C2: for any KB document, parsing and then re-joining each returned
entry's text lines with newlines reproduces the entry's original block
verbatim, where the blocks are the slices of the document's lines running
from one header line to (exclusive) the next header line or the end. -/
theorem parse_kb_roundtrip (doc : String) :
    (parse_kb_entries doc).map (fun e => pyJoin "\n" e.text_lines) =
      (specBlocks (pySplitlines doc)).map (fun b => pyJoin "\n" b) := by
  have h := parseKbLines_text_lines (pySplitlines doc)
  calc (parse_kb_entries doc).map (fun e => pyJoin "\n" e.text_lines)
      = ((parse_kb_entries doc).map (fun e => e.text_lines)).map (fun b => pyJoin "\n" b) := by
        rw [List.map_map]; rfl
    _ = (specBlocks (pySplitlines doc)).map (fun b => pyJoin "\n" b) := by
        unfold parse_kb_entries; rw [h]

theorem parseKbLoop_none_dropWhile (ls : List String) :
    parseKbLoop ls none = parseKbLoop (ls.dropWhile fun l => !(isHeader l)) none := by
  induction ls with
  | nil => rfl
  | cons l ls ih =>
    by_cases h : isHeader l
    · simp [List.dropWhile_cons, h]
    · simp only [parseKbLoop, h, Bool.false_eq_true, if_false, List.dropWhile_cons,
        Bool.not_false, if_true, ih]

/-- Claim C10: all lines before the first header line are ignored — parsing a
document equals parsing with the pre-header lines dropped, and a document
with no header line at all parses to the empty sequence. -/
theorem parse_kb_ignores_preamble (doc : String) :
    parse_kb_entries doc =
      parseKbLines ((pySplitlines doc).dropWhile fun l => !(isHeader l)) ∧
    ((pySplitlines doc).all (fun l => !(isHeader l)) → parse_kb_entries doc = []) := by
  constructor
  · unfold parse_kb_entries parseKbLines
    rw [parseKbLoop_none_dropWhile]
  · intro hall
    unfold parse_kb_entries parseKbLines
    rw [parseKbLoop_none_dropWhile]
    have : (pySplitlines doc).dropWhile (fun l => !(isHeader l)) = [] := by
      rw [List.dropWhile_eq_nil_iff]
      intro x hx
      exact (List.all_eq_true.mp hall) x hx
    rw [this]; rfl

/-- Witness for C10: a concrete document with no header line parses to the
empty sequence. -/
theorem parse_kb_ignores_preamble_witness : parse_kb_entries "hello\nworld" = [] :=
  (parse_kb_ignores_preamble "hello\nworld").2 (by decide)

/-!  Retrieval properties (claims C4 and C5). -/

theorem entryScore_foldl (q : String) (ts : List String) (s : Nat) :
    ts.foldl (fun s t => if t != "" && pyContains t q then s + 3 else s) s =
      s + 3 * ts.countP (fun t => t != "" && pyContains t q) := by
  induction ts generalizing s with
  | nil => simp
  | cons t ts ih =>
    rw [List.foldl_cons, List.countP_cons]
    by_cases hb : (t != "" && pyContains t q) = true
    · rw [if_pos hb, if_pos hb, ih]
      omega
    · rw [if_neg hb, if_neg hb, ih]
      omega

theorem entryScore_eq (e : KbEntry) (q : String) :
    entryScore e q = 3 * e.triggers.countP (fun t => t != "" && pyContains t q) := by
  unfold entryScore
  rw [entryScore_foldl]
  omega

theorem mem_insertDesc (a p : Nat × KbEntry) (l : List (Nat × KbEntry)) :
    a ∈ insertDesc p l ↔ a = p ∨ a ∈ l := by
  induction l with
  | nil => simp [insertDesc]
  | cons q qs ih =>
    by_cases h : q.1 ≤ p.1
    · simp [insertDesc, h]
    · simp [insertDesc, h, ih]
      tauto

theorem mem_sortDesc (a : Nat × KbEntry) (l : List (Nat × KbEntry)) :
    a ∈ sortDesc l ↔ a ∈ l := by
  induction l with
  | nil => simp [sortDesc]
  | cons p ps ih => simp [sortDesc, mem_insertDesc, ih]

theorem pairwise_insertDesc (p : Nat × KbEntry) (l : List (Nat × KbEntry))
    (hl : l.Pairwise fun a b => b.1 ≤ a.1) :
    (insertDesc p l).Pairwise fun a b => b.1 ≤ a.1 := by
  induction l with
  | nil => simp [insertDesc]
  | cons q qs ih =>
    rcases List.pairwise_cons.mp hl with ⟨hq, hqs⟩
    by_cases h : q.1 ≤ p.1
    · rw [insertDesc, if_pos h]
      refine List.pairwise_cons.mpr ⟨?_, hl⟩
      intro b hb
      rcases List.mem_cons.mp hb with rfl | hb
      · exact h
      · exact le_trans (hq b hb) h
    · rw [insertDesc, if_neg h]
      refine List.pairwise_cons.mpr ⟨?_, ih hqs⟩
      intro b hb
      rcases (mem_insertDesc b p qs).mp hb with rfl | hb
      · omega
      · exact hq b hb

theorem pairwise_sortDesc (l : List (Nat × KbEntry)) :
    (sortDesc l).Pairwise fun a b => b.1 ≤ a.1 := by
  induction l with
  | nil => simp [sortDesc]
  | cons p ps ih => exact pairwise_insertDesc p (sortDesc ps) ih

theorem filter_insertDesc (s : Nat) (p : Nat × KbEntry) (l : List (Nat × KbEntry))
    (hl : l.Pairwise fun a b => b.1 ≤ a.1) :
    (insertDesc p l).filter (fun x => x.1 == s) =
      if p.1 == s then p :: l.filter (fun x => x.1 == s)
      else l.filter (fun x => x.1 == s) := by
  induction l with
  | nil => by_cases h : p.1 == s <;> simp [insertDesc, h]
  | cons q qs ih =>
    rcases List.pairwise_cons.mp hl with ⟨hq, hqs⟩
    by_cases h : q.1 ≤ p.1
    · rw [insertDesc, if_pos h]
      by_cases hp : p.1 == s <;> simp [List.filter_cons, hp]
    · rw [insertDesc, if_neg h]
      by_cases hp : p.1 == s
      · have hps : p.1 = s := by simpa using hp
        have hqn : (q.1 == s) = false := by
          simp only [beq_eq_false_iff_ne]
          omega
        simp [List.filter_cons, hqn, ih hqs, hp]
      · by_cases hq2 : q.1 == s <;> simp [List.filter_cons, hq2, ih hqs, hp]

theorem filter_sortDesc (s : Nat) (l : List (Nat × KbEntry)) :
    (sortDesc l).filter (fun x => x.1 == s) = l.filter (fun x => x.1 == s) := by
  induction l with
  | nil => rfl
  | cons p ps ih =>
    rw [sortDesc, filter_insertDesc s p (sortDesc ps) (pairwise_sortDesc ps)]
    by_cases hp : p.1 == s <;> simp [List.filter_cons, hp, ih]

theorem filter_of_map (f : α → β) (p : β → Bool) (l : List α) :
    (l.map f).filter p = (l.filter fun a => p (f a)).map f := by
  induction l with
  | nil => rfl
  | cons a l ih =>
    by_cases h : p (f a) <;> simp [List.filter_cons, h, ih]

theorem filter_map_snd (q : String) (s : Nat) (l : List (Nat × KbEntry))
    (hl : ∀ p ∈ l, p.1 = entryScore p.2 q) :
    (l.map fun p => p.2).filter (fun e => entryScore e q == s) =
      (l.filter fun x => x.1 == s).map fun p => p.2 := by
  induction l with
  | nil => rfl
  | cons p ps ih =>
    have hp := hl p (List.mem_cons_self p ps)
    have hrest : ∀ r ∈ ps, r.1 = entryScore r.2 q :=
      fun r hr => hl r (List.mem_cons_of_mem p hr)
    by_cases h : (entryScore p.2 q == s) = true
    · have : (p.1 == s) = true := by rw [hp]; exact h
      simp [List.filter_cons, h, this, ih hrest]
    · have : (p.1 == s) = false := by
        rw [hp]; exact Bool.eq_false_iff.mpr (by simpa using h)
      simp [List.filter_cons, h, this, ih hrest]

/-- The KB entry of spec Scenario A: `id=1, triggers=["を", "に"]`. -/
def scenarioAEntry : KbEntry :=
  { id := "1", title := "", triggers := ["を", "に"], text_lines := [], text := "..." }

/-- A KB entry whose single trigger carries a trailing space. -/
def spacedTriggerEntry : KbEntry :=
  { id := "E1", title := "", triggers := ["a "], text_lines := [], text := "" }

/-- Counterexample to claim C4 as stated: for the query `"a "` the trigger
`"a "` is a non-empty substring of the query, so the claim assigns score 3,
but `select_kb` matches triggers against the whitespace-stripped query `"a"`,
computes score 0, and excludes the entry. -/
theorem select_kb_raw_query_cex :
    3 * (spacedTriggerEntry.triggers.countP fun t => t != "" && pyContains t "a ") = 3 ∧
    entryScore spacedTriggerEntry (pyStrip "a ") = 0 ∧
    select_kb [spacedTriggerEntry] "a " 3 = [] := by
  refine ⟨by decide, by decide, by decide⟩

/-- Claim C4 (amended: scores are computed against the whitespace-stripped
query): every entry's score is 3 times the number of its triggers that are
non-empty substrings of the stripped query; every selected entry has positive
score (score-0 entries are excluded); and Scenario A returns its single entry
with score 3. -/
theorem select_kb_scoring :
    (∀ (e : KbEntry) (q : String),
      entryScore e q = 3 * e.triggers.countP fun t => t != "" && pyContains t q)
    ∧ (∀ (entries : List KbEntry) (query : String) (topk : Nat) (e : KbEntry),
        e ∈ select_kb entries query topk → 0 < entryScore e (pyStrip query))
    ∧ (select_kb [scenarioAEntry] "今日はに行きました" 3 = [scenarioAEntry]
       ∧ entryScore scenarioAEntry (pyStrip "今日はに行きました") = 3) := by
  refine ⟨entryScore_eq, ?_, by decide, by decide⟩
  intro entries query topk e he
  simp only [select_kb] at he
  by_cases hq : (pyStrip query = "" || entries.isEmpty) = true
  · rw [if_pos hq] at he
    simp at he
  · rw [if_neg hq] at he
    rcases List.mem_map.mp he with ⟨p, hp, rfl⟩
    have hp2 : p ∈ sortDesc ((entries.map fun e => (entryScore e (pyStrip query), e)).filter
        fun p => 0 < p.1) := List.mem_of_mem_take hp
    have hp3 := (mem_sortDesc _ _).mp hp2
    rcases List.mem_filter.mp hp3 with ⟨hp4, hp5⟩
    rcases List.mem_map.mp hp4 with ⟨e', _, rfl⟩
    simpa using hp5

/-- Witness for C4: Scenario A's entry is selected and its score is
positive. -/
theorem select_kb_scoring_witness :
    0 < entryScore scenarioAEntry (pyStrip "今日はに行きました") :=
  select_kb_scoring.2.1 [scenarioAEntry] "今日はに行きました" 3 scenarioAEntry (by decide)

theorem entryScore_empty_query (e : KbEntry) : entryScore e "" = 0 := by
  rw [entryScore_eq]
  have h0 : (e.triggers.countP fun t => t != "" && pyContains t "") = 0 := by
    rw [List.countP_eq_zero]
    intro t ht hp
    simp only [Bool.and_eq_true] at hp
    rcases hp with ⟨h1, h2⟩
    obtain ⟨td⟩ := t
    cases td with
    | nil => exact absurd h1 (by decide)
    | cons c cs => exact absurd h2 (by simp [pyContains, pyContainsL])
  rw [h0]

/-- The scored candidate list built by `select_kb`'s loop: `(score, entry)`
pairs for entries with positive score, in document order. -/
def scoredOf (entries : List KbEntry) (q : String) : List (Nat × KbEntry) :=
  (entries.map fun e => (entryScore e q, e)).filter fun p => 0 < p.1

theorem select_kb_eq (entries : List KbEntry) (query : String) (topk : Nat) :
    select_kb entries query topk =
      if pyStrip query = "" || entries.isEmpty then []
      else ((sortDesc (scoredOf entries (pyStrip query))).take topk).map fun p => p.2 := rfl

theorem scoredOf_fst (entries : List KbEntry) (q : String) :
    ∀ p ∈ scoredOf entries q, p.1 = entryScore p.2 q ∧ 0 < p.1 := by
  intro p hp
  rcases List.mem_filter.mp hp with ⟨h1, h2⟩
  rcases List.mem_map.mp h1 with ⟨e, _, rfl⟩
  exact ⟨rfl, by simpa using h2⟩

theorem scoredOf_filter_key (entries : List KbEntry) (q : String) (s : Nat) :
    (scoredOf entries q).filter (fun x => x.1 == s) =
      (entries.filter fun e =>
          decide (0 < entryScore e q) && (entryScore e q == s)).map
        fun e => (entryScore e q, e) := by
  unfold scoredOf
  rw [List.filter_filter, filter_of_map]
  refine congrArg (List.map fun e => (entryScore e q, e)) (List.filter_congr ?_)
  intro e he
  simp only [Bool.and_comm]

/-- Claim C5: the retrieval result has length at most `topk`, is ordered by
score descending, and among entries of equal score preserves the original
document order (stability: for every score value, the selected entries of
that score, in order, form a prefix of the kept entries of that score in
document order). -/
theorem select_kb_props (entries : List KbEntry) (query : String) (topk : Nat) :
    (select_kb entries query topk).length ≤ topk
    ∧ (select_kb entries query topk).Pairwise
        (fun a b => entryScore b (pyStrip query) ≤ entryScore a (pyStrip query))
    ∧ ∀ s : Nat, ∃ rest : List KbEntry,
        (select_kb entries query topk).filter
            (fun e => entryScore e (pyStrip query) == s) ++ rest
          = entries.filter fun e =>
              decide (0 < entryScore e (pyStrip query)) &&
                (entryScore e (pyStrip query) == s) := by
  by_cases hq : (decide (pyStrip query = "") || entries.isEmpty) = true
  · have hsel : select_kb entries query topk = [] := by
      rw [select_kb_eq, if_pos hq]
    simp only [Bool.or_eq_true, decide_eq_true_eq, List.isEmpty_iff] at hq
    refine ⟨by rw [hsel]; simp, by rw [hsel]; simp, ?_⟩
    intro s
    refine ⟨[], ?_⟩
    rw [hsel]
    simp only [List.filter_nil, List.nil_append, List.append_nil]
    symm
    rw [List.filter_eq_nil_iff]
    intro e he hpred
    rcases hq with hq | hq
    · rw [hq, entryScore_empty_query] at hpred
      simp at hpred
    · subst hq; simp at he
  · have hsel : select_kb entries query topk =
        ((sortDesc (scoredOf entries (pyStrip query))).take topk).map fun p => p.2 := by
      rw [select_kb_eq, if_neg hq]
    have hinv : ∀ p ∈ (sortDesc (scoredOf entries (pyStrip query))).take topk,
        p.1 = entryScore p.2 (pyStrip query) := by
      intro p hp
      exact (scoredOf_fst entries (pyStrip query) p
        ((mem_sortDesc _ _).mp (List.mem_of_mem_take hp))).1
    refine ⟨?_, ?_, ?_⟩
    · rw [hsel, List.length_map, List.length_take]
      exact Nat.min_le_left _ _
    · rw [hsel]
      rw [List.pairwise_map]
      have hpw : ((sortDesc (scoredOf entries (pyStrip query))).take topk).Pairwise
          (fun a b => b.1 ≤ a.1) :=
        (pairwise_sortDesc _).sublist (List.take_sublist _ _)
      refine hpw.imp_of_mem ?_
      intro a b ha hb hab
      rw [← hinv a ha, ← hinv b hb]
      exact hab
    · intro s
      refine ⟨((sortDesc (scoredOf entries (pyStrip query))).drop topk |>.filter
        fun x => x.1 == s).map fun p => p.2, ?_⟩
      rw [hsel, filter_map_snd (pyStrip query) s _ hinv, ← List.map_append,
        ← List.filter_append, List.take_append_drop, filter_sortDesc,
        scoredOf_filter_key, List.map_map]
      have hcomp : ((fun p : Nat × KbEntry => p.2) ∘
          fun e => (entryScore e (pyStrip query), e)) = id := rfl
      rw [hcomp, List.map_id]

/-!  Normalization properties (claims C1 and C9). -/

theorem dropWhile_head_false (p : Char → Bool) (l : List Char) :
    ∀ c, (l.dropWhile p).head? = some c → p c = false := by
  induction l with
  | nil => intro c hc; simp at hc
  | cons a l ih =>
    intro c hc
    by_cases h : p a
    · rw [List.dropWhile_cons, if_pos h] at hc
      exact ih c hc
    · rw [List.dropWhile_cons, if_neg h] at hc
      rcases Option.some.inj hc with rfl
      exact Bool.eq_false_iff.mpr h

theorem dropWhile_of_head_false (p : Char → Bool) (l : List Char)
    (h : ∀ c, l.head? = some c → p c = false) : l.dropWhile p = l := by
  cases l with
  | nil => rfl
  | cons a l =>
    have ha := h a rfl
    rw [List.dropWhile_cons, if_neg (by simp [ha])]

theorem dropWhile_idem (p : Char → Bool) (l : List Char) :
    (l.dropWhile p).dropWhile p = l.dropWhile p :=
  dropWhile_of_head_false p _ (dropWhile_head_false p l)

theorem pyStripL_idem (l : List Char) : pyStripL (pyStripL l) = pyStripL l := by
  unfold pyStripL
  set c := l.dropWhile isPySpace with hc
  set b := c.reverse.dropWhile isPySpace with hb
  have h1 : b.reverse.dropWhile isPySpace = b.reverse := by
    apply dropWhile_of_head_false
    intro x hx
    rw [List.head?_reverse] at hx
    have hbne : b ≠ [] := by
      intro h0
      rw [h0] at hx
      simp at hx
    have hsuff : b <:+ c.reverse := by rw [hb]; exact List.dropWhile_suffix _
    rcases hsuff with ⟨pre, hpre⟩
    have hx2 : (c.reverse).getLast? = some x := by
      rw [← hpre, List.getLast?_append_of_ne_nil _ hbne]
      exact hx
    rw [List.getLast?_reverse] at hx2
    exact dropWhile_head_false isPySpace l x hx2
  rw [h1, List.reverse_reverse, hb, dropWhile_idem]

theorem pyStrip_idem (s : String) : pyStrip (pyStrip s) = pyStrip s := by
  unfold pyStrip
  rw [pyStripL_idem]

/-- Claim C9: fence-stripping normalization is idempotent on already-unfenced
text — if the stripped text does not begin with a triple-backtick fence,
normalizing twice equals normalizing once. -/
theorem normalize_idem_unfenced (s : String)
    (h : pyStartsWith (pyStrip s) "```" = false) :
    normalizeResponse (normalizeResponse s) = normalizeResponse s := by
  have h1 : normalizeResponse s = pyStrip s := by
    unfold normalizeResponse
    rw [if_neg (by simp [h])]
  rw [h1]
  unfold normalizeResponse
  rw [pyStrip_idem, if_neg (by simp [h])]

/-- Witness for C9 at a concrete unfenced input. -/
theorem normalize_idem_unfenced_witness :
    normalizeResponse (normalizeResponse " hello ") = normalizeResponse " hello " :=
  normalize_idem_unfenced " hello " (by decide)

theorem splitTicksAux_head (l : List Char) :
    ∀ acc, (splitTicksAux acc l).head? = some (acc.reverse ++ takeUntilTicksL l) := by
  induction l with
  | nil => intro acc; simp [splitTicksAux, takeUntilTicksL]
  | cons c cs ih =>
    intro acc
    rcases cs with _ | ⟨c2, cs2⟩
    · simp [splitTicksAux, takeUntilTicksL]
    · rcases cs2 with _ | ⟨c3, cs3⟩
      · simp [splitTicksAux, takeUntilTicksL]
      · by_cases h : c = '`' ∧ c2 = '`' ∧ c3 = '`'
        · obtain ⟨rfl, rfl, rfl⟩ := h
          simp [splitTicksAux, takeUntilTicksL]
        · rw [show splitTicksAux acc (c :: c2 :: c3 :: cs3) =
              splitTicksAux (c :: acc) (c2 :: c3 :: cs3) by
            rw [splitTicksAux]; exact if_neg h]
          rw [ih (c :: acc)]
          rw [show takeUntilTicksL (c :: c2 :: c3 :: cs3) =
              c :: takeUntilTicksL (c2 :: c3 :: cs3) by
            rw [takeUntilTicksL]; exact if_neg h]
          simp

theorem splitTicksAux_ne_nil (l : List Char) (acc : List Char) :
    splitTicksAux acc l ≠ [] := by
  intro h0
  have := splitTicksAux_head l acc
  rw [h0] at this
  simp at this

/-- Modelled from the amended claim C1: strip surrounding whitespace; on a
leading fence take the first fenced block and delete every occurrence of the
`json` token from it, then strip whitespace again. -/
def specNormalizeAmended (s : String) : String :=
  if pyStartsWith (pyStrip s) "```" = true then
    pyStrip (removeJson (firstFencedBlock (pyStrip s)))
  else pyStrip s

/-- Counterexample to claim C1 as stated: on the fenced response
(backticks)json newline `get json` newline (backticks), the code removes
every occurrence of `json` — including the one inside the payload — yielding
`"get"`, while the claim's leading-tag-only stripping yields `"get json"`. -/
theorem normalize_leading_tag_cex :
    normalizeResponse "```json\nget json\n```" = "get" ∧
    specNormalizeC1 "```json\nget json\n```" = "get json" ∧
    normalizeResponse "```json\nget json\n```" ≠
      specNormalizeC1 "```json\nget json\n```" := by
  refine ⟨by decide, by decide, by decide⟩

/-- Claim C1 (amended): after stripping surrounding whitespace, if the text
begins with a triple-backtick fence, normalization splits on the fence
delimiter, takes the first fenced block, removes every occurrence of the
`json` token from that block (not only a leading language tag), and strips
whitespace; the result is what is passed to the JSON parser. -/
theorem normalize_removes_all_json (s : String) :
    normalizeResponse s = specNormalizeAmended s := by
  unfold normalizeResponse specNormalizeAmended
  by_cases h : pyStartsWith (pyStrip s) "```" = true
  · rw [if_pos (by simpa using h), if_pos h]
    have hdat : ∃ rest, (pyStrip s).data = '`' :: '`' :: '`' :: rest := by
      unfold pyStartsWith at h
      rcases hd : (pyStrip s).data with _ | ⟨a, _ | ⟨b, _ | ⟨c, r⟩⟩⟩ <;> rw [hd] at h
      · simp [List.isPrefixOf] at h
      · simp [List.isPrefixOf] at h
      · simp [List.isPrefixOf] at h
      · simp only [show ("```" : String).data = ['`', '`', '`'] from rfl,
          List.isPrefixOf, Bool.and_eq_true, beq_iff_eq] at h
        rcases h with ⟨rfl, rfl, rfl, -⟩
        exact ⟨r, rfl⟩
    obtain ⟨rest, hrest⟩ := hdat
    have hsplit : pySplitTicks (pyStrip s) =
        (⟨[]⟩ : String) :: (splitTicksAux [] rest).map fun x => (⟨x⟩ : String) := by
      unfold pySplitTicks
      rw [hrest]
      rw [show splitTicksAux [] ('`' :: '`' :: '`' :: rest) =
          [].reverse :: splitTicksAux [] rest by
        rw [splitTicksAux]; exact if_pos ⟨rfl, rfl, rfl⟩]
      simp
    have hlen : 2 ≤ (pySplitTicks (pyStrip s)).length := by
      rw [hsplit]
      simp only [List.length_cons, List.length_map]
      have := splitTicksAux_ne_nil rest []
      have hpos : 0 < (splitTicksAux [] rest).length := List.length_pos.mpr this
      omega
    rw [if_pos hlen]
    have hget : (pySplitTicks (pyStrip s)).getD 1 "" = ⟨takeUntilTicksL rest⟩ := by
      rw [hsplit]
      rcases haux : splitTicksAux [] rest with _ | ⟨p0, ps⟩
      · exact absurd haux (splitTicksAux_ne_nil rest [])
      · have hh := splitTicksAux_head rest []
        rw [haux] at hh
        simp only [List.head?_cons, List.reverse_nil, List.nil_append] at hh
        rcases Option.some.inj hh with rfl
        rfl
    rw [hget]
    have hffb : firstFencedBlock (pyStrip s) = ⟨takeUntilTicksL rest⟩ := by
      unfold firstFencedBlock
      rw [hrest]
      rfl
    rw [hffb]
  · rw [if_neg (by simpa using h), if_neg h]

/-!  Prompt-assembly properties (claim C8). -/

/-- Modelled from the spec: the citation list names exactly the selected
entries' ids, or the literal `なし` marker when the selection is empty. -/
def citationOf (sel : List KbEntry) : String :=
  if sel = [] then "なし" else pyJoin ", " (sel.map fun e => e.id)

/-- Claim C8: the composed system prompt embeds the reference block (each
selected entry's text truncated to its first 1200 characters, entries joined
with a blank line) and a citation rule listing exactly the selected entries'
ids, or the literal `なし` marker when the selection is empty. -/
theorem build_prompt_embeds (cfg : Config) (entries : List KbEntry) (user_text : String) :
    (∃ a b : String, build_system_prompt cfg entries user_text =
      a ++ pyJoin "\n\n" ((selectedOf cfg entries user_text).map fun e => strTake 1200 e.text)
        ++ b)
    ∧ (∃ c d : String, build_system_prompt cfg entries user_text =
      c ++ ("（参照: " ++ citationOf (selectedOf cfg entries user_text) ++ "）") ++ d) := by
  have hcite : (if (selectedOf cfg entries user_text).map (fun e => e.id) != [] then
        pyJoin ", " ((selectedOf cfg entries user_text).map fun e => e.id)
      else "なし") = citationOf (selectedOf cfg entries user_text) := by
    unfold citationOf
    rcases selectedOf cfg entries user_text with _ | ⟨e, es⟩
    · rfl
    · rw [if_pos (by simp), if_neg (by simp)]
  constructor
  · refine ⟨"\n你是一个“日语会话老师+逐句纠错器”。\n\n对话设定：\n- 学习者目标水平：" ++
      cfg.level ++ "\n- 对话语气：" ++ cfg.tone ++ "\n- 主题：" ++ cfg.topic ++
      "\n- 纠错严格度：" ++ Nat.repr cfg.strictness ++
      "/5\n\n【参考資料：文法ノート（KB）】\n",
      "\n\n硬性规则：\n- mini_lesson_ja 与理由解释要尽量依据KB内容来讲，不要编造“教材规则”。\n- 如果KB没有覆盖，就只给非常保守的解释（别瞎定规则）。\n- mini_lesson_ja 末尾必须标注" ++
      ("（参照: " ++ citationOf (selectedOf cfg entries user_text) ++ "）") ++
      "\n\n输出必须严格符合 TutorTurn 结构（只输出JSON对象，不要Markdown，不要多余文字）。\n", ?_⟩
    simp only [build_system_prompt]
    rw [hcite]
    simp only [String.append_assoc]
  · refine ⟨"\n你是一个“日语会话老师+逐句纠错器”。\n\n对话设定：\n- 学习者目标水平：" ++
      cfg.level ++ "\n- 对话语气：" ++ cfg.tone ++ "\n- 主题：" ++ cfg.topic ++
      "\n- 纠错严格度：" ++ Nat.repr cfg.strictness ++
      "/5\n\n【参考資料：文法ノート（KB）】\n" ++
      pyJoin "\n\n" ((selectedOf cfg entries user_text).map fun e => strTake 1200 e.text) ++
      "\n\n硬性规则：\n- mini_lesson_ja 与理由解释要尽量依据KB内容来讲，不要编造“教材规则”。\n- 如果KB没有覆盖，就只给非常保守的解释（别瞎定规则）。\n- mini_lesson_ja 末尾必须标注",
      "\n\n输出必须严格符合 TutorTurn 结构（只输出JSON对象，不要Markdown，不要多余文字）。\n", ?_⟩
    simp only [build_system_prompt]
    rw [hcite]

/-!  Send-handler properties (claims C3 and C7). -/

/-- Claim C3: if the exchange fails — network failure, malformed (non-JSON)
response after fence-stripping, or validation failure — session state is
unchanged: nothing is appended to the history or the mistake log. -/
theorem exchange_failure_preserves_state (jloads : String → Option Jval) (cfg : Config)
    (entries : List KbEntry) (st : SessionState) (user_text : String) (net : Option String)
    (h : exOk (runExchange jloads cfg entries st user_text net).outcome = false) :
    (runExchange jloads cfg entries st user_text net).state = st := by
  unfold runExchange at h ⊢
  cases net with
  | none => rfl
  | some raw =>
    cases hj : jloads (normalizeResponse raw) with
    | none => simp only [hj]
    | some j =>
      simp only [hj] at h ⊢
      cases hv : validateTutorTurn j with
      | error errs => simp only [hv]
      | ok r =>
        simp only [hv, exOk] at h
        exact absurd h (by decide)

/-- Witness for C3: a failed network call leaves a concrete session state
unchanged. -/
theorem exchange_failure_preserves_state_witness :
    (runExchange (fun _ => none) ⟨"N3", "丁寧", "日常", 3, true, 3⟩ []
      ⟨[⟨"user", "前"⟩], []⟩ "こんにちは" none).state = ⟨[⟨"user", "前"⟩], []⟩ :=
  exchange_failure_preserves_state _ _ _ _ _ _ rfl

/-- Claim C7: the model is sent the system instruction, then at most the last
10 history entries (a suffix of the history, the whole history when it is
short), then the new user entry; on success exactly the user and assistant
turns are appended to the history and exactly one mistake entry per
`CorrectionItem` of the validated turn is appended to the mistake log. -/
theorem exchange_messages_and_appends (jloads : String → Option Jval) (cfg : Config)
    (entries : List KbEntry) (st : SessionState) (user_text : String) (net : Option String) :
    (∃ ctx : List Msg,
      (runExchange jloads cfg entries st user_text net).sent =
        ⟨"system", build_system_prompt cfg entries user_text⟩ :: (ctx ++ [⟨"user", user_text⟩])
      ∧ ctx.length ≤ 10
      ∧ (∃ pre : List Msg, pre ++ ctx = st.history)
      ∧ (st.history.length ≤ 10 → ctx = st.history))
    ∧ ∀ r : TutorTurn,
        (runExchange jloads cfg entries st user_text net).outcome = Except.ok r →
        (runExchange jloads cfg entries st user_text net).state.history =
          st.history ++ [⟨"user", user_text⟩, ⟨"assistant", r.reply_ja⟩]
        ∧ (runExchange jloads cfg entries st user_text net).state.mistakes =
          st.mistakes ++ r.corrections.map fun c =>
            ⟨errorTypeToString c.error_type, c.original, c.corrected⟩ := by
  have hsent : (runExchange jloads cfg entries st user_text net).sent =
      ⟨"system", build_system_prompt cfg entries user_text⟩ ::
        (st.history.drop (st.history.length - 10) ++ [⟨"user", user_text⟩]) := by
    unfold runExchange
    cases net with
    | none => rfl
    | some raw =>
      cases hj : jloads (normalizeResponse raw) with
      | none => simp only [hj]
      | some j =>
        simp only [hj]
        cases hv : validateTutorTurn j with
        | error errs => simp only [hv]
        | ok r => simp only [hv]
  constructor
  · refine ⟨st.history.drop (st.history.length - 10), hsent, ?_, ?_, ?_⟩
    · rw [List.length_drop]
      omega
    · exact ⟨st.history.take (st.history.length - 10), List.take_append_drop _ _⟩
    · intro hshort
      have : st.history.length - 10 = 0 := by omega
      rw [this, List.drop_zero]
  · intro r hr
    unfold runExchange at hr ⊢
    cases net with
    | none => simp at hr
    | some raw =>
      cases hj : jloads (normalizeResponse raw) with
      | none =>
        simp only [hj] at hr
        exact Except.noConfusion hr
      | some j =>
        simp only [hj] at hr ⊢
        cases hv : validateTutorTurn j with
        | error errs =>
          simp only [hv] at hr
          exact Except.noConfusion hr
        | ok r' =>
          simp only [hv] at hr ⊢
          rcases Except.ok.inj hr with rfl
          exact ⟨rfl, rfl⟩

/-- A concrete valid correction object. -/
def sampleCorrectionJson : Jval :=
  .obj [("original", .str "は"), ("corrected", .str "が"), ("error_type", .str "particle"),
        ("reason_zh", .str "理由"), ("reason_ja", .str "理由"), ("tip", .str "ヒント")]

/-- A concrete valid `TutorTurn` response object. -/
def sampleTurnJson : Jval :=
  .obj [("reply_ja", .str "こんにちは！"), ("corrected_sentence_ja", .str "修正文"),
        ("more_natural_ja", .str "自然な文"), ("corrections", .arr [sampleCorrectionJson]),
        ("mini_lesson_ja", .str "レッスン"), ("next_question_ja", .str "質問？"),
        ("fluency_score", .int 80)]

/-- The validated form of `sampleTurnJson`. -/
def sampleTurn : TutorTurn :=
  { reply_ja := "こんにちは！", corrected_sentence_ja := "修正文",
    more_natural_ja := "自然な文",
    corrections := [⟨"は", "が", .particle, "理由", "理由", "ヒント"⟩],
    mini_lesson_ja := "レッスン", next_question_ja := "質問？", fluency_score := 80 }

/-- A concrete non-empty session state. -/
def sampleState : SessionState := ⟨[⟨"user", "前の文"⟩, ⟨"assistant", "前の返事"⟩], []⟩

/-- Witness for C7: a concrete successful exchange appends exactly the user
and assistant turns and one mistake entry per correction. -/
theorem exchange_messages_and_appends_witness :
    (runExchange (fun _ => some sampleTurnJson) ⟨"N3", "丁寧", "日常生活", 3, true, 3⟩ []
        sampleState "次の文" (some "resp")).state.history =
      sampleState.history ++ [⟨"user", "次の文"⟩, ⟨"assistant", sampleTurn.reply_ja⟩]
    ∧ (runExchange (fun _ => some sampleTurnJson) ⟨"N3", "丁寧", "日常生活", 3, true, 3⟩ []
        sampleState "次の文" (some "resp")).state.mistakes =
      sampleState.mistakes ++ sampleTurn.corrections.map fun c =>
        ⟨errorTypeToString c.error_type, c.original, c.corrected⟩ :=
  (exchange_messages_and_appends _ _ _ _ _ _).2 sampleTurn (by decide)

/-!  Validator properties (claim C6). -/

theorem errList_strFieldE (kvs : List (String × Jval)) (name : String) :
    errList (strFieldE kvs name) = if strOkB kvs name then [] else [name] := by
  cases hj : jlookup kvs name with
  | none => simp [strFieldE, strOkB, hj, errList]
  | some v => cases v <;> simp [strFieldE, strOkB, hj, errList]

theorem errList_fluencyFieldE (kvs : List (String × Jval)) :
    errList (fluencyFieldE kvs) = if fluencyOkB kvs then [] else ["fluency_score"] := by
  cases hj : jlookup kvs "fluency_score" with
  | none => simp [fluencyFieldE, fluencyOkB, hj, errList]
  | some v =>
    cases hv : pydIntValue v with
    | none => simp [fluencyFieldE, fluencyOkB, hj, hv, errList]
    | some n =>
      by_cases h : 0 ≤ n ∧ n ≤ 100
      · simp [fluencyFieldE, fluencyOkB, hj, hv, h, h.1, h.2, errList]
      · simp [fluencyFieldE, fluencyOkB, hj, hv, h, errList]

theorem errList_errTypeFieldE (kvs : List (String × Jval)) :
    errList (errTypeFieldE kvs) = if errTypeOkB kvs then [] else ["error_type"] := by
  cases hj : jlookup kvs "error_type" with
  | none => simp [errTypeFieldE, errTypeOkB, hj, errList]
  | some v =>
    cases v <;> simp [errTypeFieldE, errTypeOkB, hj, errList]
    case str st =>
      cases ho : errorTypeOfString st <;> simp [ho, errList]

theorem if_nil_eq_nil_iff (b : Bool) (n : String) :
    (if b then ([] : List String) else [n]) = [] ↔ b = true := by
  cases b <;> simp

theorem validateCorrection_nil_iff (j : Jval) :
    errList (validateCorrection j) = [] ↔ corrItemOkB j = true := by
  cases j with
  | obj kvs =>
    simp only [validateCorrection]
    by_cases he : (errList (strFieldE kvs "original") ++ errList (strFieldE kvs "corrected") ++
        errList (errTypeFieldE kvs) ++ errList (strFieldE kvs "reason_zh") ++
        errList (strFieldE kvs "reason_ja") ++ errList (strFieldE kvs "tip")).isEmpty = true
    · rw [if_pos he]
      simp only [errList, true_iff]
      rw [List.isEmpty_iff] at he
      simp only [errList_strFieldE, errList_errTypeFieldE, List.append_eq_nil,
        if_nil_eq_nil_iff] at he
      simp [corrItemOkB, he.1.1.1.1.1, he.1.1.1.1.2, he.1.1.1.2, he.1.1.2, he.1.2, he.2]
    · rw [if_neg he]
      simp only [errList]
      constructor
      · intro h0
        exact absurd (List.isEmpty_iff.mpr h0) he
      · intro hok
        exfalso
        apply he
        rw [List.isEmpty_iff]
        simp only [corrItemOkB, Bool.and_eq_true] at hok
        simp only [errList_strFieldE, errList_errTypeFieldE, List.append_eq_nil,
          if_nil_eq_nil_iff]
        exact ⟨⟨⟨⟨⟨hok.1.1.1.1.1, hok.1.1.1.1.2⟩, hok.1.1.1.2⟩, hok.1.1.2⟩, hok.1.2⟩, hok.2⟩
  | null => simp [validateCorrection, errList, corrItemOkB]
  | bool b => simp [validateCorrection, errList, corrItemOkB]
  | int n => simp [validateCorrection, errList, corrItemOkB]
  | float q => simp [validateCorrection, errList, corrItemOkB]
  | str s => simp [validateCorrection, errList, corrItemOkB]
  | arr xs => simp [validateCorrection, errList, corrItemOkB]

theorem itemsErrs_nil_iff (xs : List Jval) :
    ∀ i, itemsErrs i xs = [] ↔ xs.all corrItemOkB = true := by
  induction xs with
  | nil => intro i; simp [itemsErrs]
  | cons x xs ih =>
    intro i
    simp only [itemsErrs, List.append_eq_nil, List.map_eq_nil_iff, List.all_cons,
      Bool.and_eq_true, ih (i + 1), validateCorrection_nil_iff]

theorem pathHead_corr_pre (t : String) : pathHead ("corrections." ++ t) = "corrections" := by
  unfold pathHead
  rw [String.data_append]
  rfl

theorem itemsErrs_heads (xs : List Jval) :
    ∀ i p, p ∈ itemsErrs i xs → pathHead p = "corrections" := by
  induction xs with
  | nil => intro i p hp; simp [itemsErrs] at hp
  | cons x xs ih =>
    intro i p hp
    rcases List.mem_append.mp hp with hp | hp
    · rcases List.mem_map.mp hp with ⟨q, _, rfl⟩
      exact pathHead_corr_pre _
    · exact ih (i + 1) p hp

theorem errList_ite {α : Type} (c : Prop) [Decidable c] (a : α) (e : List String) :
    errList (if c then Except.ok a else Except.error e) = if c then [] else e := by
  by_cases h : c <;> simp [h, errList]

theorem errList_corrFieldE_nil_iff (kvs : List (String × Jval)) :
    errList (corrFieldE kvs) = [] ↔ corrOkB kvs = true := by
  unfold corrFieldE corrOkB
  cases hj : jlookup kvs "corrections" with
  | none => simp [errList]
  | some v =>
    cases v with
    | arr xs =>
      simp only
      rw [errList_ite]
      by_cases he : (itemsErrs 0 xs).isEmpty = true
      · rw [if_pos he]
        exact iff_of_true rfl ((itemsErrs_nil_iff xs 0).mp (List.isEmpty_iff.mp he))
      · rw [if_neg he]
        have hne : itemsErrs 0 xs ≠ [] := fun h0 => he (List.isEmpty_iff.mpr h0)
        have hall : ¬(xs.all corrItemOkB = true) :=
          fun h0 => hne ((itemsErrs_nil_iff xs 0).mpr h0)
        exact iff_of_false hne hall
    | null => simp [errList]
    | bool b => simp [errList]
    | int n => simp [errList]
    | float q => simp [errList]
    | str st => simp [errList]
    | obj kvs2 => simp [errList]

theorem errList_corrFieldE_heads (kvs : List (String × Jval)) :
    ∀ p ∈ errList (corrFieldE kvs), pathHead p = "corrections" := by
  intro p hp
  unfold corrFieldE at hp
  cases hj : jlookup kvs "corrections" with
  | none => simp only [hj, errList] at hp; simp at hp
  | some v =>
    simp only [hj] at hp
    cases v with
    | arr xs =>
      rw [errList_ite] at hp
      by_cases he : (itemsErrs 0 xs).isEmpty = true
      · rw [if_pos he] at hp
        simp at hp
      · rw [if_neg he] at hp
        exact itemsErrs_heads xs 0 p hp
    | null => simp [errList] at hp; subst hp; rfl
    | bool b => simp [errList] at hp; subst hp; rfl
    | int n => simp [errList] at hp; subst hp; rfl
    | float q => simp [errList] at hp; subst hp; rfl
    | str st => simp [errList] at hp; subst hp; rfl
    | obj kvs2 => simp [errList] at hp; subst hp; rfl

theorem errorsOf_obj (kvs : List (String × Jval)) :
    errorsOf (Jval.obj kvs) =
      errList (strFieldE kvs "reply_ja") ++ errList (strFieldE kvs "corrected_sentence_ja") ++
      errList (strFieldE kvs "more_natural_ja") ++ errList (corrFieldE kvs) ++
      errList (strFieldE kvs "mini_lesson_ja") ++ errList (strFieldE kvs "next_question_ja") ++
      errList (fluencyFieldE kvs) := by
  unfold errorsOf
  simp only [validateTutorTurn]
  by_cases he : (errList (strFieldE kvs "reply_ja") ++ errList (strFieldE kvs "corrected_sentence_ja") ++
      errList (strFieldE kvs "more_natural_ja") ++ errList (corrFieldE kvs) ++
      errList (strFieldE kvs "mini_lesson_ja") ++ errList (strFieldE kvs "next_question_ja") ++
      errList (fluencyFieldE kvs)).isEmpty = true
  · rw [if_pos he]
    simp only [errList]
    exact (List.isEmpty_iff.mp he).symm
  · rw [if_neg he]
    rfl

theorem exOk_eq_tutorOkB (kvs : List (String × Jval)) :
    exOk (validateTutorTurn (Jval.obj kvs)) = tutorOkB kvs := by
  simp only [validateTutorTurn]
  by_cases he : (errList (strFieldE kvs "reply_ja") ++ errList (strFieldE kvs "corrected_sentence_ja") ++
      errList (strFieldE kvs "more_natural_ja") ++ errList (corrFieldE kvs) ++
      errList (strFieldE kvs "mini_lesson_ja") ++ errList (strFieldE kvs "next_question_ja") ++
      errList (fluencyFieldE kvs)).isEmpty = true
  · rw [if_pos he]
    have hok : tutorOkB kvs = true := by
      rw [List.isEmpty_iff] at he
      simp only [List.append_eq_nil, errList_strFieldE, errList_fluencyFieldE,
        if_nil_eq_nil_iff, errList_corrFieldE_nil_iff] at he
      simp [tutorOkB, he.1.1.1.1.1.1, he.1.1.1.1.1.2, he.1.1.1.1.2, he.1.1.1.2,
        he.1.1.2, he.1.2, he.2]
    rw [hok]
    rfl
  · rw [if_neg he]
    have hok : tutorOkB kvs = false := by
      cases hb : tutorOkB kvs with
      | false => rfl
      | true =>
        exfalso
        apply he
        rw [List.isEmpty_iff]
        simp only [tutorOkB, Bool.and_eq_true] at hb
        simp only [List.append_eq_nil, errList_strFieldE, errList_fluencyFieldE,
          if_nil_eq_nil_iff, errList_corrFieldE_nil_iff]
        exact ⟨⟨⟨⟨⟨⟨hb.1.1.1.1.1.1, hb.1.1.1.1.1.2⟩, hb.1.1.1.1.2⟩, hb.1.1.1.2⟩,
          hb.1.1.2⟩, hb.1.2⟩, hb.2⟩
    rw [hok]
    rfl

theorem exists_head_ifnil (b : Bool) (n f : String) (hn : pathHead n = n) :
    (∃ p, p ∈ (if b then ([] : List String) else [n]) ∧ pathHead p = f) ↔
      (b = false ∧ f = n) := by
  cases b with
  | true => simp
  | false =>
    simp only [Bool.false_eq_true, if_false, List.mem_singleton]
    constructor
    · rintro ⟨p, rfl, hq⟩
      rw [hn] at hq
      exact ⟨by simp, hq.symm⟩
    · rintro ⟨-, hfn⟩
      refine ⟨n, rfl, ?_⟩
      rw [hn]
      exact hfn.symm

theorem exists_head_corr (kvs : List (String × Jval)) (f : String) :
    (∃ p, p ∈ errList (corrFieldE kvs) ∧ pathHead p = f) ↔
      (corrOkB kvs = false ∧ f = "corrections") := by
  constructor
  · rintro ⟨p, hp, rfl⟩
    refine ⟨?_, errList_corrFieldE_heads kvs p hp⟩
    cases hb : corrOkB kvs with
    | false => rfl
    | true =>
      exfalso
      have h0 : errList (corrFieldE kvs) = [] := (errList_corrFieldE_nil_iff kvs).mpr hb
      rw [h0] at hp
      simp at hp
  · rintro ⟨hb, rfl⟩
    have hne : errList (corrFieldE kvs) ≠ [] := by
      intro h0
      rw [errList_corrFieldE_nil_iff] at h0
      rw [h0] at hb
      exact Bool.noConfusion hb
    rcases List.exists_mem_of_ne_nil _ hne with ⟨p, hp⟩
    exact ⟨p, hp, errList_corrFieldE_heads kvs p hp⟩

/-- Claim C6 (amended: pydantic v2 validates in lax mode, so `fluency_score`
also accepts a boolean, an integer-valued float, or a numeric string whose
coerced value is in `[0, 100]`): the schema validator accepts a parsed JSON
object iff it satisfies the `TutorTurn` definition under lax coercion (all
required string fields present as strings — strings are not coerced —
`fluency_score` lax-coercible to an integer in `[0, 100]`, `error_type`
within the closed eight-value enumeration, `corrections` absent or an array
of valid items), and on rejection the reported violations cover exactly the
violated top-level fields, not only the first one. -/
theorem validator_iff_schema (kvs : List (String × Jval)) :
    exOk (validateTutorTurn (Jval.obj kvs)) = tutorOkB kvs
    ∧ ∀ f : String,
        (∃ p, p ∈ errorsOf (Jval.obj kvs) ∧ pathHead p = f) ↔ fieldFails f kvs = true := by
  refine ⟨exOk_eq_tutorOkB kvs, ?_⟩
  intro f
  rw [errorsOf_obj kvs]
  simp only [List.mem_append, or_and_right, exists_or]
  rw [errList_strFieldE kvs "reply_ja", errList_strFieldE kvs "corrected_sentence_ja",
    errList_strFieldE kvs "more_natural_ja", errList_strFieldE kvs "mini_lesson_ja",
    errList_strFieldE kvs "next_question_ja", errList_fluencyFieldE kvs]
  rw [exists_head_ifnil (strOkB kvs "reply_ja") "reply_ja" f rfl,
    exists_head_ifnil (strOkB kvs "corrected_sentence_ja") "corrected_sentence_ja" f rfl,
    exists_head_ifnil (strOkB kvs "more_natural_ja") "more_natural_ja" f rfl,
    exists_head_corr kvs f,
    exists_head_ifnil (strOkB kvs "mini_lesson_ja") "mini_lesson_ja" f rfl,
    exists_head_ifnil (strOkB kvs "next_question_ja") "next_question_ja" f rfl,
    exists_head_ifnil (fluencyOkB kvs) "fluency_score" f rfl]
  unfold fieldFails
  by_cases h1 : f = "reply_ja"
  · subst h1; simp +decide
  rw [if_neg h1]
  by_cases h2 : f = "corrected_sentence_ja"
  · subst h2; simp +decide
  rw [if_neg h2]
  by_cases h3 : f = "more_natural_ja"
  · subst h3; simp +decide
  rw [if_neg h3]
  by_cases h4 : f = "corrections"
  · subst h4; simp +decide
  rw [if_neg h4]
  by_cases h5 : f = "mini_lesson_ja"
  · subst h5; simp +decide
  rw [if_neg h5]
  by_cases h6 : f = "next_question_ja"
  · subst h6; simp +decide
  rw [if_neg h6]
  by_cases h7 : f = "fluency_score"
  · subst h7; simp +decide
  rw [if_neg h7]
  simp [h1, h2, h3, h4, h5, h6, h7]

/-- Counterexample to claim C6 as stated: pydantic's lax validation accepts
`fluency_score` given as the numeric string `"80"` — which is not a JSON
integer — so "accepts iff the fluency score is an integer in `[0, 100]`" is
false of the program; the strict reading of the claim rejects this object. -/
theorem validator_lax_coercion_cex :
    validateTutorTurn (Jval.obj strScoreKvs) =
      Except.ok
        { reply_ja := "a", corrected_sentence_ja := "b", more_natural_ja := "c",
          corrections := [], mini_lesson_ja := "d", next_question_ja := "e",
          fluency_score := 80 }
    ∧ tutorOkStrictB strScoreKvs = false := by
  refine ⟨rfl, by decide⟩
